import Mathlib

/-!
Shallow embedding of the node-sqlite-kv key-value store.

The authoritative implementation is `src/classes/KVSync.ts`: a `KVSync` class
over a SQLite table `kv (key TEXT PRIMARY KEY NOT NULL, value BLOB NOT NULL)`,
with `set/get/delete/all/clear/setJournalMode/transaction` operations and a
staged-intent transaction primitive.  Values are round-tripped through the
`node:v8` `serialize`/`deserialize` codec, modelled here by explicit
`enc : α → β` / `dec : β → α` functions.  Keys at the JavaScript level may be
non-strings, modelled by `JKey`.  Errors (`KVError(scope, message)`) and
failures raised by a transaction routine are modelled by `KVErr ε`.

The SQLite engine state visible to this layer is the `kv` table (an
insertion-ordered association list with unique keys), the open/closed flag,
the journal mode, and the transaction journal (`BEGIN` snapshots the table,
`ROLLBACK` restores it, `COMMIT` discards the snapshot).
-/

/-- A JavaScript value used as a key: either a string or some non-string value.
`!key || typeof key !== "string"` in the source rejects exactly the empty
string and every non-string. -/
inductive JKey where
  | str (s : String)
  | nonString
deriving DecidableEq, Repr

/-- A JavaScript value in the `undefined` / `null` / real-value lattice used by
the transaction maps (`oldMap` stores `undefined` or a value, `newMap` stores
`null`, `undefined`, or a value). -/
inductive JVal (α : Type) where
  | undef
  | jnull
  | val (a : α)
deriving DecidableEq, Repr

/-- An error: either a `KVError(scope, message)` thrown by the store, or an
arbitrary failure `ε` raised by a caller-supplied transaction routine. -/
inductive KVErr (ε : Type) where
  | kv (scope : String) (msg : String)
  | user (e : ε)
deriving DecidableEq, Repr

def notOpenMsg : String := "Database is not open"

/-- `set`'s invalid-key message (the source omits the final period here). -/
def invalidKeyMsgSet : String := "Key must be provided and be a non-empty string"

/-- `get`/`delete`'s invalid-key message. -/
def invalidKeyMsgDot : String := "Key must be provided and be a non-empty string."

def undefinedValueMsg : String :=
  "Provided value is undefined, did you mean to use delete()?"

/-- The store state: the `kv` table, the transaction journal snapshot, the
open flag and the current journal mode. -/
structure KVSync (β : Type) where
  table : List (String × β)
  snapshot : Option (List (String × β))
  isOpen : Bool
  journalMode : String
deriving DecidableEq, Repr

/-- `SELECT value FROM kv WHERE key = ?` on the table. -/
def lookupKey {β : Type} (k : String) : List (String × β) → Option β
  | [] => none
  | p :: t => if p.1 = k then some p.2 else lookupKey k t

/-- `INSERT OR REPLACE INTO kv (key, value) VALUES (?, ?)` on a table whose
keys are unique (the `PRIMARY KEY` constraint): replace the row if the key is
present, otherwise append a new row. -/
def upsert {β : Type} : List (String × β) → String → β → List (String × β)
  | [], k, v => [(k, v)]
  | p :: t, k, v => if p.1 = k then (k, v) :: t else p :: upsert t k v

/-- `DELETE FROM kv WHERE key = ?` on the table. -/
def removeKey {β : Type} : List (String × β) → String → List (String × β)
  | [], _ => []
  | p :: t, k => if p.1 = k then removeKey t k else p :: removeKey t k

/-- `KVSync.get`: open check, key validation, then
`SELECT value FROM kv WHERE key = ?` and decode; `none` models the SQL row
being absent (the method returns `null`). -/
def KVSync.get {α β ε : Type} (dec : β → α) (kv : KVSync β) (key : JKey) :
    Except (KVErr ε) (Option α) :=
  if !kv.isOpen then .error (.kv "get" notOpenMsg)
  else
    match key with
    | .str s =>
      if s = "" then .error (.kv "get" invalidKeyMsgDot)
      else
        match lookupKey s kv.table with
        | some b => .ok (some (dec b))
        | none => .ok none
    | .nonString => .error (.kv "get" invalidKeyMsgDot)

/-- `KVSync.set`: open check, key validation, undefined-value check, then
upsert of the encoded value; returns the value as given.  The supplied value
is an `Option α` where `none` models the JavaScript `undefined` argument.
On a thrown error the state component is the unchanged input state. -/
def KVSync.set {α β ε : Type} (enc : α → β) (kv : KVSync β) (key : JKey) (value : Option α) :
    Except (KVErr ε) α × KVSync β :=
  if !kv.isOpen then (.error (.kv "set" notOpenMsg), kv)
  else
    match key with
    | .nonString => (.error (.kv "set" invalidKeyMsgSet), kv)
    | .str s =>
      if s = "" then (.error (.kv "set" invalidKeyMsgSet), kv)
      else
        match value with
        | none => (.error (.kv "set" undefinedValueMsg), kv)
        | some a => (.ok a, { kv with table := upsert kv.table s (enc a) })

/-- `KVSync.delete` of `src/classes/KVSync.ts`: open check, key validation,
`DELETE FROM kv WHERE key = ?`, and `return this` — the result is the store
instance itself, not the previous value. -/
def KVSync.delete {β ε : Type} (kv : KVSync β) (key : JKey) :
    Except (KVErr ε) (KVSync β) × KVSync β :=
  if !kv.isOpen then (.error (.kv "delete" notOpenMsg), kv)
  else
    match key with
    | .nonString => (.error (.kv "delete" invalidKeyMsgDot), kv)
    | .str s =>
      if s = "" then (.error (.kv "delete" invalidKeyMsgDot), kv)
      else
        let kv2 := { kv with table := removeKey kv.table s }
        (.ok kv2, kv2)

/-- `KVSync.all`: open check, then a full scan decoding each row and applying
the optional caller-supplied filter. -/
def KVSync.all {α β ε : Type} (dec : β → α) (kv : KVSync β)
    (filter : Option (String → α → Bool)) : Except (KVErr ε) (List (String × α)) :=
  if !kv.isOpen then .error (.kv "all" notOpenMsg)
  else
    .ok (kv.table.filterMap (fun p =>
      let v := dec p.2
      match filter with
      | none => some (p.1, v)
      | some f => if f p.1 v then some (p.1, v) else none))

/-- The recognized journal modes (`journalModes` in `src/utils`). -/
def journalModes : List String := ["DELETE", "MEMORY", "OFF", "PERSIST", "TRUNCATE", "WAL"]

def invalidJournalModeMsg (mode : String) : String :=
  "Invalid journal mode specified - received: \"" ++ mode ++
    "\", expected one of: " ++ String.intercalate ", " journalModes

/-- `KVSync.setJournalMode`: open check, membership test against the
recognized list, then `PRAGMA journal_mode = mode`; returns the instance. -/
def KVSync.setJournalMode {β ε : Type} (kv : KVSync β) (mode : String) :
    Except (KVErr ε) (KVSync β) × KVSync β :=
  if !kv.isOpen then (.error (.kv "setJournalMode" notOpenMsg), kv)
  else if !(journalModes.contains mode) then
    (.error (.kv "setJournalMode" (invalidJournalModeMsg mode)), kv)
  else
    let kv2 := { kv with journalMode := mode }
    (.ok kv2, kv2)

/-- `delete` of the earlier variant `src/structures/KVSync.ts`: reads the
existing value, removes the row only when a value was present, and returns the
previous value (`null`, i.e. `none`, when absent).  That variant performs no
key validation and has no open check. -/
def structuresDelete {α β : Type} (dec : β → α) (kv : KVSync β) (key : String) :
    Option α × KVSync β :=
  let existing : Option α := (lookupKey key kv.table).map dec
  match existing with
  | some v => (some v, { kv with table := removeKey kv.table key })
  | none => (none, kv)

/-- `BEGIN TRANSACTION;` — the journal snapshots the current table. -/
def KVSync.begin {β : Type} (kv : KVSync β) : KVSync β :=
  { kv with snapshot := some kv.table }

/-- `COMMIT;` — the journal snapshot is discarded. -/
def KVSync.commit {β : Type} (kv : KVSync β) : KVSync β :=
  { kv with snapshot := none }

/-- `ROLLBACK;` — the table is restored from the journal snapshot. -/
def KVSync.rollback {β : Type} (kv : KVSync β) : KVSync β :=
  match kv.snapshot with
  | some t => { kv with table := t, snapshot := none }
  | none => kv

/-- One operation a caller-supplied transaction routine can perform against the
staging handle `tx`: `tx.set(key, value)` (where `value = none` models a
JavaScript `undefined` argument), `tx.delete(key)`, a read `tx.get(key)`
(inherited from the store through the prototype), or raising a failure. -/
inductive TxOp (α ε : Type) where
  | set (key : JKey) (value : Option α)
  | del (key : JKey)
  | get (key : JKey)
  | raise (e : ε)
deriving DecidableEq, Repr

/-- The state of one transaction call: the enclosing store, the two
insertion-ordered maps `oldMap` / `newMap`, and the log of results returned by
`get` calls performed inside the routine. -/
structure TxState (α β : Type) where
  kv : KVSync β
  oldMap : List (String × JVal α)
  newMap : List (String × JVal α)
  gets : List (Option α)
deriving Repr

/-- JavaScript `Map.prototype.set`: replace in place when the key is present
(keeping its original insertion position), otherwise append. -/
def mapSet {α : Type} : List (String × JVal α) → String → JVal α → List (String × JVal α)
  | [], k, v => [(k, v)]
  | p :: m, k, v => if p.1 = k then (k, v) :: m else p :: mapSet m k v

/-- JavaScript `Map.prototype.has` applied to a possibly non-string key. -/
def mapHas {α : Type} (m : List (String × JVal α)) (k : JKey) : Bool :=
  match k with
  | .str s => (lookupKey s m).isSome
  | .nonString => false

/-- `oldValue === null ? undefined : oldValue`: the value recorded in `oldMap`
from a snapshot read. -/
def oldEntryOf {α : Type} : Option α → JVal α
  | none => .undef
  | some a => .val a

/-- The value recorded in `newMap` by `tx.set` (`undefined` is staged as-is). -/
def stagedOf {α : Type} : Option α → JVal α
  | none => .undef
  | some a => .val a

/-- `value ?? null`: the value returned by `tx.set`. -/
def retOf {α : Type} : Option α → JVal α
  | none => .jnull
  | some a => .val a

/-- The first-touch snapshot shared by `tx.set` and `tx.delete`: when the key
is not yet in `oldMap`, read its current value from the underlying store and
record it (as `undefined` when absent). -/
def txSnap {α β ε : Type} (dec : β → α) (st : TxState α β) (key : JKey) :
    Except (KVErr ε) Unit × TxState α β :=
  if mapHas st.oldMap key then (.ok (), st)
  else
    match KVSync.get dec st.kv key with
    | .error e => (.error e, st)
    | .ok r =>
      match key with
      | .str s => (.ok (), { st with oldMap := mapSet st.oldMap s (oldEntryOf r) })
      | .nonString => (.ok (), st)  -- cannot run: the snapshot read rejects non-string keys

/-- `tx.set(key, value)`: first-touch snapshot, then stage the intent in
`newMap` and return `value ?? null`. -/
def txSet {α β ε : Type} (dec : β → α) (st : TxState α β) (key : JKey) (value : Option α) :
    Except (KVErr ε) (JVal α) × TxState α β :=
  match txSnap dec st key with
  | (.error e, st') => (.error e, st')
  | (.ok _, st') =>
    match key with
    | .str s => (.ok (retOf value), { st' with newMap := mapSet st'.newMap s (stagedOf value) })
    | .nonString => (.ok (retOf value), st')  -- cannot run: txSnap fails for non-string keys

/-- `tx.delete(key)`: first-touch snapshot, then stage a `null` (delete)
intent in `newMap`; the source returns the handle itself. -/
def txDel {α β ε : Type} (dec : β → α) (st : TxState α β) (key : JKey) :
    Except (KVErr ε) Unit × TxState α β :=
  match txSnap dec st key with
  | (.error e, st') => (.error e, st')
  | (.ok _, st') =>
    match key with
    | .str s => (.ok (), { st' with newMap := mapSet st'.newMap s JVal.jnull })
    | .nonString => (.ok (), st')  -- cannot run: txSnap fails for non-string keys

/-- A `get` performed inside the routine: the handle inherits the store's
`get` through the prototype, so it reads the underlying engine directly.  The
result is appended to the observation log. -/
def txGet {α β ε : Type} (dec : β → α) (st : TxState α β) (key : JKey) :
    Except (KVErr ε) (Option α) × TxState α β :=
  match KVSync.get dec st.kv key with
  | .error e => (.error e, st)
  | .ok r => (.ok r, { st with gets := st.gets ++ [r] })

/-- One step of a transaction routine. -/
def stepOp {α β ε : Type} (dec : β → α) (st : TxState α β) :
    TxOp α ε → Except (KVErr ε) Unit × TxState α β
  | .set key value =>
    match txSet dec st key value with
    | (.error e, st') => (.error e, st')
    | (.ok _, st') => (.ok (), st')
  | .del key =>
    match txDel dec st key with
    | (.error e, st') => (.error e, st')
    | (.ok _, st') => (.ok (), st')
  | .get key =>
    match txGet dec st key with
    | (.error e, st') => (.error e, st')
    | (.ok _, st') => (.ok (), st')
  | .raise e => (.error (.user e), st)

/-- Execution of a caller-supplied routine against the staging handle: the
ops run in order, and the first failure aborts the routine with that error. -/
def stageRun {α β ε : Type} (dec : β → α) :
    TxState α β → List (TxOp α ε) → Except (KVErr ε) Unit × TxState α β
  | st, [] => (.ok (), st)
  | st, op :: rest =>
    match stepOp dec st op with
    | (.error e, st') => (.error e, st')
    | (.ok _, st') => stageRun dec st' rest

/-- The replay loop: for each `newMap` entry in insertion order, a `null`
intent performs the store's `delete` and any other staged value is passed to
the store's `set` (so a staged `undefined` makes `set` raise). -/
def replay {α β ε : Type} (enc : α → β) :
    KVSync β → List (String × JVal α) → Except (KVErr ε) Unit × KVSync β
  | kv, [] => (.ok (), kv)
  | kv, (k, w) :: rest =>
    match w with
    | .jnull =>
      match KVSync.delete (ε := ε) kv (.str k) with
      | (.error e, kv') => (.error e, kv')
      | (.ok _, kv') => replay enc kv' rest
    | .undef =>
      match KVSync.set enc kv (.str k) none with
      | (.error e, kv') => (.error e, kv')
      | (.ok _, kv') => replay enc kv' rest
    | .val a =>
      match KVSync.set enc kv (.str k) (some a) with
      | (.error e, kv') => (.error e, kv')
      | (.ok _, kv') => replay enc kv' rest

/-- The before/after report returned by a successful transaction. -/
structure TxReport (α : Type) where
  oldValues : List (String × JVal α)
  newValues : List (String × JVal α)
deriving DecidableEq, Repr

/-- `KVSync.transaction` of `src/classes/KVSync.ts`: open check, fresh maps,
then `try { BEGIN; callback(tx); replay; COMMIT } catch (e) { ROLLBACK; throw e }`,
finally the report built from the two maps in insertion order. -/
def KVSync.transaction {α β ε : Type} (enc : α → β) (dec : β → α) (kv : KVSync β)
    (callback : List (TxOp α ε)) : Except (KVErr ε) (TxReport α) × KVSync β :=
  if !kv.isOpen then (.error (.kv "transaction" notOpenMsg), kv)
  else
    match stageRun dec ⟨KVSync.begin kv, [], [], []⟩ callback with
    | (.error e, st') => (.error e, KVSync.rollback st'.kv)
    | (.ok _, st') =>
      match replay enc st'.kv st'.newMap with
      | (.error e, kv') => (.error e, KVSync.rollback kv')
      | (.ok _, kv') => (.ok ⟨st'.oldMap, st'.newMap⟩, KVSync.commit kv')

/-- The keys of the `set`/`delete` ops of a routine, in execution order (both
ops touch `oldMap`/`newMap`; `get` and `raise` touch neither). -/
def touchedKeys {α ε : Type} : List (TxOp α ε) → List String
  | [] => []
  | .set (.str s) _ :: r => s :: touchedKeys r
  | .del (.str s) :: r => s :: touchedKeys r
  | _ :: r => touchedKeys r

/-- Folding a key sequence into an insertion-ordered key list: a key already
present is left where it first entered, a new key is appended.  `insKeys [] l`
is the first-touch order of `l`. -/
def insKeys (acc : List String) : List String → List String
  | [] => acc
  | k :: r => insKeys (if k ∈ acc then acc else acc ++ [k]) r

/-- The last staged intent a routine records for a key, if any: the staged
value of the last `set`/`delete` op whose key is `k`. -/
def lastIntent {α ε : Type} : List (TxOp α ε) → String → Option (JVal α)
  | [], _ => none
  | op :: r, k =>
    match lastIntent r k with
    | some v => some v
    | none =>
      match op with
      | .set (.str s) v => if s = k then some (stagedOf v) else none
      | .del (.str s) => if s = k then some JVal.jnull else none
      | _ => none

/-- The value a table currently holds for a key, decoded. -/
def tableVal {α β : Type} (dec : β → α) (t : List (String × β)) (k : String) : Option α :=
  (lookupKey k t).map dec

/-- Applying a list of staged intents to a table directly: a `null` intent is
the store's delete effect, a staged value is the store's set (upsert) effect.
(A staged `undefined` has no table effect; replay fails on it instead.) -/
def applyIntents {α β : Type} (enc : α → β) (t : List (String × β)) :
    List (String × JVal α) → List (String × β)
  | [] => t
  | (k, w) :: rest =>
    match w with
    | .jnull => applyIntents enc (removeKey t k) rest
    | .val a => applyIntents enc (upsert t k (enc a)) rest
    | .undef => applyIntents enc t rest

/-- The sequence of values the routine's `get` calls observe, if every one of
them reads the pre-transaction table. -/
def specGets {α β ε : Type} (dec : β → α) (t : List (String × β)) : List (TxOp α ε) → List (Option α)
  | [] => []
  | .get (.str s) :: r => tableVal dec t s :: specGets dec t r
  | _ :: r => specGets dec t r

/-- The net effect of the first-touch snapshot on `oldMap`: skip when the key
is already recorded, otherwise append the key's current store value. -/
def snapOld {α β : Type} (dec : β → α) (kv : KVSync β) (m : List (String × JVal α))
    (s : String) : List (String × JVal α) :=
  if (lookupKey s m).isSome then m else mapSet m s (oldEntryOf (tableVal dec kv.table s))

/-! ### Association-list lemmas -/

theorem lookupKey_upsert_self {β : Type} (t : List (String × β)) (k : String) (v : β) :
    lookupKey k (upsert t k v) = some v := by
  induction t with
  | nil => simp [upsert, lookupKey]
  | cons p t ih =>
    by_cases h : p.1 = k
    · simp [upsert, h, lookupKey]
    · simp [upsert, h, lookupKey, ih]

theorem lookupKey_upsert_ne {β : Type} (t : List (String × β)) {k k' : String} (v : β)
    (h : k' ≠ k) : lookupKey k' (upsert t k v) = lookupKey k' t := by
  have h' : ¬(k = k') := fun hh => h hh.symm
  induction t with
  | nil => simp [upsert, lookupKey, h']
  | cons p t ih =>
    by_cases hp : p.1 = k
    · simp [upsert, hp, lookupKey, h']
    · simp [upsert, hp, lookupKey, ih]

theorem lookupKey_removeKey_self {β : Type} (t : List (String × β)) (k : String) :
    lookupKey k (removeKey t k) = none := by
  induction t with
  | nil => simp [removeKey, lookupKey]
  | cons p t ih =>
    by_cases h : p.1 = k
    · simp [removeKey, h, ih]
    · simp [removeKey, h, lookupKey, ih]

theorem lookupKey_removeKey_ne {β : Type} (t : List (String × β)) {k k' : String}
    (h : k' ≠ k) : lookupKey k' (removeKey t k) = lookupKey k' t := by
  induction t with
  | nil => simp [removeKey, lookupKey]
  | cons p t ih =>
    by_cases hp : p.1 = k
    · have h' : ¬(k = k') := fun hh => h hh.symm
      simp [removeKey, hp, lookupKey, ih, h']
    · simp [removeKey, hp, lookupKey, ih]

theorem lookupKey_mapSet_self {α : Type} (m : List (String × JVal α)) (k : String) (v : JVal α) :
    lookupKey k (mapSet m k v) = some v := by
  induction m with
  | nil => simp [mapSet, lookupKey]
  | cons p m ih =>
    by_cases h : p.1 = k
    · simp [mapSet, h, lookupKey]
    · simp [mapSet, h, lookupKey, ih]

theorem lookupKey_mapSet_ne {α : Type} (m : List (String × JVal α)) {k k' : String} (v : JVal α)
    (h : k' ≠ k) : lookupKey k' (mapSet m k v) = lookupKey k' m := by
  have h' : ¬(k = k') := fun hh => h hh.symm
  induction m with
  | nil => simp [mapSet, lookupKey, h']
  | cons p m ih =>
    by_cases hp : p.1 = k
    · simp [mapSet, hp, lookupKey, h']
    · simp [mapSet, hp, lookupKey, ih]

theorem mem_keys_iff_lookupKey {α : Type} (m : List (String × JVal α)) (k : String) :
    k ∈ m.map Prod.fst ↔ (lookupKey k m).isSome := by
  induction m with
  | nil => simp [lookupKey]
  | cons p m ih =>
    by_cases h : p.1 = k
    · simp [lookupKey, h]
    · have h' : ¬(k = p.1) := fun hh => h hh.symm
      simp [lookupKey, h, ih, h']

theorem keys_mapSet {α : Type} (m : List (String × JVal α)) (k : String) (v : JVal α) :
    (mapSet m k v).map Prod.fst =
      if k ∈ m.map Prod.fst then m.map Prod.fst else m.map Prod.fst ++ [k] := by
  induction m with
  | nil => simp [mapSet]
  | cons p m ih =>
    by_cases h : p.1 = k
    · simp [mapSet, h]
    · have h' : ¬(k = p.1) := fun hh => h hh.symm
      simp [mapSet, h, ih, h']
      by_cases hm : k ∈ m.map Prod.fst <;> simp [hm, h']

/-! ### Operation-level lemmas -/

theorem get_open_valid {α β ε : Type} (dec : β → α) (kv : KVSync β) {s : String}
    (hopen : kv.isOpen = true) (hs : s ≠ "") :
    KVSync.get (ε := ε) dec kv (.str s) = .ok (tableVal dec kv.table s) := by
  simp only [KVSync.get, hopen, Bool.not_true, Bool.false_eq_true, if_false, hs, if_neg hs,
    tableVal]
  cases lookupKey s kv.table <;> simp

theorem get_ok_inv {α β ε : Type} (dec : β → α) (kv : KVSync β) {key : JKey} {r : Option α}
    (h : KVSync.get (ε := ε) dec kv key = .ok r) :
    kv.isOpen = true ∧ ∃ s, key = .str s ∧ s ≠ "" ∧ r = tableVal dec kv.table s := by
  by_cases hopen : kv.isOpen = true
  · cases key with
    | str s =>
      by_cases hs : s = ""
      · rw [hs] at h; simp [KVSync.get, hopen] at h
      · rw [get_open_valid dec kv hopen hs] at h
        injection h with h
        exact ⟨hopen, s, rfl, hs, h.symm⟩
    | nonString => simp [KVSync.get, hopen] at h
  · have h0 : kv.isOpen = false := by simpa using hopen
    simp [KVSync.get, h0] at h

theorem get_nonString_error {α β ε : Type} (dec : β → α) (kv : KVSync β) :
    ∃ e, KVSync.get (ε := ε) dec kv (α := α) JKey.nonString = .error e := by
  by_cases hopen : kv.isOpen = true
  · exact ⟨.kv "get" invalidKeyMsgDot, by simp [KVSync.get, hopen]⟩
  · have h0 : kv.isOpen = false := by simpa using hopen
    exact ⟨.kv "get" notOpenMsg, by simp [KVSync.get, h0]⟩

theorem set_some_shape {α β ε : Type} (enc : α → β) (kv : KVSync β) {s : String} (a : α)
    (hopen : kv.isOpen = true) (hs : s ≠ "") :
    KVSync.set (ε := ε) enc kv (.str s) (some a) =
      (.ok a, { kv with table := upsert kv.table s (enc a) }) := by
  simp [KVSync.set, hopen, hs]

theorem set_none_error {α β ε : Type} (enc : α → β) (kv : KVSync β) (key : JKey) :
    ∃ e, KVSync.set (ε := ε) enc kv key (none : Option α) = (.error e, kv) := by
  by_cases hopen : kv.isOpen = true
  · cases key with
    | str s =>
      by_cases hs : s = ""
      · exact ⟨.kv "set" invalidKeyMsgSet, by simp [KVSync.set, hopen, hs]⟩
      · exact ⟨.kv "set" undefinedValueMsg, by simp [KVSync.set, hopen, hs]⟩
    | nonString => exact ⟨.kv "set" invalidKeyMsgSet, by simp [KVSync.set, hopen]⟩
  · have h0 : kv.isOpen = false := by simpa using hopen
    exact ⟨.kv "set" notOpenMsg, by simp [KVSync.set, h0]⟩

theorem set_ok_inv {α β ε : Type} (enc : α → β) (kv : KVSync β) {key : JKey} {v : Option α}
    {a : α} {kv' : KVSync β}
    (h : KVSync.set (ε := ε) enc kv key v = (.ok a, kv')) :
    kv.isOpen = true ∧ ∃ s, key = .str s ∧ s ≠ "" ∧ v = some a ∧
      kv' = { kv with table := upsert kv.table s (enc a) } := by
  by_cases hopen : kv.isOpen = true
  · cases key with
    | str s =>
      by_cases hs : s = ""
      · rw [hs] at h; simp [KVSync.set, hopen] at h
      · cases v with
        | none => simp [KVSync.set, hopen, hs] at h
        | some a0 =>
          rw [set_some_shape enc kv a0 hopen hs] at h
          simp only [Prod.mk.injEq] at h
          injection h.1 with h1
          exact ⟨hopen, s, rfl, hs, by rw [h1], by rw [← h.2, h1]⟩
    | nonString => simp [KVSync.set, hopen] at h
  · have h0 : kv.isOpen = false := by simpa using hopen
    simp [KVSync.set, h0] at h

theorem delete_shape {β ε : Type} (kv : KVSync β) {s : String}
    (hopen : kv.isOpen = true) (hs : s ≠ "") :
    KVSync.delete (ε := ε) kv (.str s) =
      (.ok { kv with table := removeKey kv.table s },
        { kv with table := removeKey kv.table s }) := by
  simp [KVSync.delete, hopen, hs]

theorem delete_ok_inv {β ε : Type} (kv : KVSync β) {key : JKey} {x kv' : KVSync β}
    (h : KVSync.delete (ε := ε) kv key = (.ok x, kv')) :
    kv.isOpen = true ∧ ∃ s, key = .str s ∧ s ≠ "" ∧
      kv' = { kv with table := removeKey kv.table s } := by
  by_cases hopen : kv.isOpen = true
  · cases key with
    | str s =>
      by_cases hs : s = ""
      · rw [hs] at h; simp [KVSync.delete, hopen] at h
      · rw [delete_shape kv hopen hs] at h
        simp only [Prod.mk.injEq] at h
        exact ⟨hopen, s, rfl, hs, h.2.symm⟩
    | nonString => simp [KVSync.delete, hopen] at h
  · have h0 : kv.isOpen = false := by simpa using hopen
    simp [KVSync.delete, h0] at h

/-! ### Staging-layer lemmas -/

theorem insKeys_nodup (acc l : List String) (h : acc.Nodup) : (insKeys acc l).Nodup := by
  induction l generalizing acc with
  | nil => simpa [insKeys] using h
  | cons k r ih =>
    by_cases hk : k ∈ acc
    · simpa [insKeys, hk] using ih acc h
    · have hnd : (acc ++ [k]).Nodup := by
        simp [List.nodup_append, h]
        exact fun ha => hk ha
      simpa [insKeys, hk] using ih (acc ++ [k]) hnd

theorem keys_snapOld {α β : Type} (dec : β → α) (kv : KVSync β)
    (m : List (String × JVal α)) (s : String) :
    (snapOld dec kv m s).map Prod.fst =
      if s ∈ m.map Prod.fst then m.map Prod.fst else m.map Prod.fst ++ [s] := by
  unfold snapOld
  by_cases hm : (lookupKey s m).isSome
  · simp [hm, (mem_keys_iff_lookupKey m s).2 hm]
  · have hmem : ¬ s ∈ m.map Prod.fst := fun hh => hm ((mem_keys_iff_lookupKey m s).1 hh)
    simp [hm, hmem, keys_mapSet]

theorem lookupKey_snapOld {α β : Type} (dec : β → α) (kv : KVSync β)
    (m : List (String × JVal α)) (s k : String) :
    lookupKey k (snapOld dec kv m s) =
      match lookupKey k m with
      | some w => some w
      | none => if k = s then some (oldEntryOf (tableVal dec kv.table s)) else none := by
  unfold snapOld
  by_cases hm : (lookupKey s m).isSome
  · simp only [hm, if_true]
    cases hk : lookupKey k m with
    | some w => rfl
    | none =>
      have hks : ¬ k = s := by
        rintro rfl
        rw [hk] at hm
        simp at hm
      simp [hks]
  · simp only [hm, if_false, Bool.false_eq_true]
    by_cases hks : k = s
    · subst hks
      rw [lookupKey_mapSet_self]
      have : lookupKey k m = none := by
        cases hk : lookupKey k m with
        | some w => rw [hk] at hm; simp at hm
        | none => rfl
      simp [this]
    · rw [lookupKey_mapSet_ne _ _ hks]
      cases lookupKey k m with
      | some w => rfl
      | none => simp [hks]

theorem txSnap_kv {α β ε : Type} (dec : β → α) (st : TxState α β) (key : JKey) :
    (txSnap (ε := ε) dec st key).2.kv = st.kv := by
  unfold txSnap
  split
  · rfl
  · cases hg : KVSync.get (ε := ε) dec st.kv key with
    | error e => simp
    | ok r => cases key <;> simp

theorem txSnap_ok_inv {α β ε : Type} (dec : β → α) (st : TxState α β) {key : JKey}
    {u : Unit} {st' : TxState α β}
    (h : txSnap (ε := ε) dec st key = (.ok u, st')) :
    ∃ s, key = .str s ∧ st' = { st with oldMap := snapOld dec st.kv st.oldMap s } := by
  cases key with
  | nonString =>
    exfalso
    obtain ⟨e, hg⟩ := get_nonString_error (ε := ε) (α := α) dec st.kv
    unfold txSnap at h
    simp [mapHas, hg] at h
  | str s =>
    refine ⟨s, rfl, ?_⟩
    unfold txSnap at h
    by_cases hm : (lookupKey s st.oldMap).isSome
    · rw [if_pos (by simpa [mapHas] using hm)] at h
      simp only [Prod.mk.injEq] at h
      rw [← h.2]
      simp [snapOld, hm]
    · rw [if_neg (by simpa [mapHas] using hm)] at h
      cases hg : KVSync.get (ε := ε) dec st.kv (.str s) with
      | error e => rw [hg] at h; simp at h
      | ok r =>
        rw [hg] at h
        simp only [Prod.mk.injEq] at h
        obtain ⟨-, s', hkey, -, hr⟩ := get_ok_inv dec st.kv hg
        injection hkey with hkey
        subst hkey
        rw [← h.2, hr]
        simp [snapOld, hm]

theorem txSet_ok_inv {α β ε : Type} (dec : β → α) (st : TxState α β) {key : JKey}
    {v : Option α} {w : JVal α} {st' : TxState α β}
    (h : txSet (ε := ε) dec st key v = (.ok w, st')) :
    ∃ s, key = .str s ∧ w = retOf v ∧
      st' = { st with oldMap := snapOld dec st.kv st.oldMap s,
                      newMap := mapSet st.newMap s (stagedOf v) } := by
  unfold txSet at h
  rcases hsn : txSnap (ε := ε) dec st key with ⟨res, st₁⟩
  rw [hsn] at h
  cases res with
  | error e => simp at h
  | ok u =>
    obtain ⟨s, hkey, hst₁⟩ := txSnap_ok_inv dec st hsn
    subst hkey
    simp only [Prod.mk.injEq] at h
    injection h.1 with h1
    refine ⟨s, rfl, h1.symm, ?_⟩
    rw [← h.2, hst₁]

theorem txDel_ok_inv {α β ε : Type} (dec : β → α) (st : TxState α β) {key : JKey}
    {u : Unit} {st' : TxState α β}
    (h : txDel (ε := ε) dec st key = (.ok u, st')) :
    ∃ s, key = .str s ∧
      st' = { st with oldMap := snapOld dec st.kv st.oldMap s,
                      newMap := mapSet st.newMap s JVal.jnull } := by
  unfold txDel at h
  rcases hsn : txSnap (ε := ε) dec st key with ⟨res, st₁⟩
  rw [hsn] at h
  cases res with
  | error e => simp at h
  | ok u' =>
    obtain ⟨s, hkey, hst₁⟩ := txSnap_ok_inv dec st hsn
    subst hkey
    simp only [Prod.mk.injEq] at h
    refine ⟨s, rfl, ?_⟩
    rw [← h.2, hst₁]

theorem txGet_ok_inv {α β ε : Type} (dec : β → α) (st : TxState α β) {key : JKey}
    {r : Option α} {st' : TxState α β}
    (h : txGet (ε := ε) dec st key = (.ok r, st')) :
    ∃ s, key = .str s ∧ s ≠ "" ∧ st.kv.isOpen = true ∧ r = tableVal dec st.kv.table s ∧
      st' = { st with gets := st.gets ++ [r] } := by
  unfold txGet at h
  cases hg : KVSync.get (ε := ε) dec st.kv key with
  | error e => rw [hg] at h; simp at h
  | ok r0 =>
    rw [hg] at h
    simp only [Prod.mk.injEq] at h
    injection h.1 with h1
    obtain ⟨hopen, s, hkey, hs, hr0⟩ := get_ok_inv dec st.kv hg
    subst h1
    exact ⟨s, hkey, hs, hopen, hr0, h.2.symm⟩

theorem txSet_kv {α β ε : Type} (dec : β → α) (st : TxState α β) (key : JKey) (v : Option α) :
    (txSet (ε := ε) dec st key v).2.kv = st.kv := by
  unfold txSet
  rcases hsn : txSnap (ε := ε) dec st key with ⟨res, st₁⟩
  have hkv : st₁.kv = st.kv := by
    have := txSnap_kv (ε := ε) dec st key
    rw [hsn] at this; exact this
  cases res with
  | error e => simpa using hkv
  | ok u => cases key <;> simpa using hkv

theorem txDel_kv {α β ε : Type} (dec : β → α) (st : TxState α β) (key : JKey) :
    (txDel (ε := ε) dec st key).2.kv = st.kv := by
  unfold txDel
  rcases hsn : txSnap (ε := ε) dec st key with ⟨res, st₁⟩
  have hkv : st₁.kv = st.kv := by
    have := txSnap_kv (ε := ε) dec st key
    rw [hsn] at this; exact this
  cases res with
  | error e => simpa using hkv
  | ok u => cases key <;> simpa using hkv

theorem txGet_kv {α β ε : Type} (dec : β → α) (st : TxState α β) (key : JKey) :
    (txGet (ε := ε) dec st key).2.kv = st.kv := by
  unfold txGet
  cases hg : KVSync.get (ε := ε) dec st.kv key with
  | error e => rfl
  | ok r => rfl

theorem stepOp_kv {α β ε : Type} (dec : β → α) (st : TxState α β) (op : TxOp α ε) :
    (stepOp dec st op).2.kv = st.kv := by
  cases op with
  | set key v =>
    simp only [stepOp]
    rcases hts : txSet (ε := ε) dec st key v with ⟨res, st'⟩
    have hkv : st'.kv = st.kv := by
      have := txSet_kv (ε := ε) dec st key v
      rw [hts] at this; exact this
    cases res with
    | error e => exact hkv
    | ok a => exact hkv
  | del key =>
    simp only [stepOp]
    rcases hts : txDel (ε := ε) dec st key with ⟨res, st'⟩
    have hkv : st'.kv = st.kv := by
      have := txDel_kv (ε := ε) dec st key
      rw [hts] at this; exact this
    cases res with
    | error e => exact hkv
    | ok a => exact hkv
  | get key =>
    simp only [stepOp]
    rcases hts : txGet (ε := ε) dec st key with ⟨res, st'⟩
    have hkv : st'.kv = st.kv := by
      have := txGet_kv (ε := ε) dec st key
      rw [hts] at this; exact this
    cases res with
    | error e => exact hkv
    | ok a => exact hkv
  | raise e => rfl

/-- The underlying store is never touched while the routine runs: staging only
updates `oldMap`/`newMap`/the read log.  This holds whether or not the routine
completes. -/
theorem stageRun_kv {α β ε : Type} (dec : β → α) (r : List (TxOp α ε)) (st : TxState α β) :
    (stageRun dec st r).2.kv = st.kv := by
  induction r generalizing st with
  | nil => rfl
  | cons op rest ih =>
    unfold stageRun
    rcases hst : stepOp (ε := ε) dec st op with ⟨res, st'⟩
    have hkv : st'.kv = st.kv := by
      have := stepOp_kv (ε := ε) dec st op
      rw [hst] at this; exact this
    cases res with
    | error e => exact hkv
    | ok u =>
      show (stageRun dec st' rest).2.kv = st.kv
      rw [ih st']; exact hkv

theorem lookupKey_mapSet_eq {α : Type} (m : List (String × JVal α)) (k s : String) (v : JVal α) :
    lookupKey k (mapSet m s v) = if k = s then some v else lookupKey k m := by
  by_cases h : k = s
  · subst h; simp [lookupKey_mapSet_self]
  · simp [h, lookupKey_mapSet_ne m v h]

theorem stageRun_cons_ok {α β ε : Type} (dec : β → α) (st : TxState α β) (op : TxOp α ε)
    (rest : List (TxOp α ε)) (h : (stageRun dec st (op :: rest)).1 = .ok ()) :
    ∃ st₁, stepOp dec st op = (.ok (), st₁) ∧
      stageRun dec st (op :: rest) = stageRun dec st₁ rest := by
  rcases hst : stepOp (ε := ε) dec st op with ⟨res, st₁⟩
  have hrun : stageRun dec st (op :: rest) =
      match stepOp dec st op with
      | (.error e, st') => (.error e, st')
      | (.ok _, st') => stageRun dec st' rest := rfl
  rw [hst] at hrun
  cases res with
  | error e => rw [hrun] at h; simp at h
  | ok u =>
    cases u
    refine ⟨st₁, ?_, hrun⟩
    rfl

/-- What a successfully completed routine leaves in the session state:
the two maps' keys are the first-touch order of the touched keys, `newMap`
holds the last staged intent per key, `oldMap` holds the store value captured
at each key's first touch, and the read log holds pre-transaction values. -/
theorem stageRun_ok_spec {α β ε : Type} (dec : β → α) (r : List (TxOp α ε)) (st : TxState α β)
    (h : (stageRun dec st r).1 = Except.ok ()) :
    ((stageRun dec st r).2.newMap.map Prod.fst
        = insKeys (st.newMap.map Prod.fst) (touchedKeys r))
    ∧ ((stageRun dec st r).2.oldMap.map Prod.fst
        = insKeys (st.oldMap.map Prod.fst) (touchedKeys r))
    ∧ (∀ k, lookupKey k (stageRun dec st r).2.newMap
        = match lastIntent r k with
          | some v => some v
          | none => lookupKey k st.newMap)
    ∧ (∀ k, lookupKey k (stageRun dec st r).2.oldMap
        = match lookupKey k st.oldMap with
          | some w => some w
          | none =>
            if k ∈ touchedKeys r then some (oldEntryOf (tableVal dec st.kv.table k))
            else none)
    ∧ (stageRun dec st r).2.gets = st.gets ++ specGets dec st.kv.table r := by
  induction r generalizing st with
  | nil =>
    refine ⟨rfl, rfl, fun k => rfl, fun k => ?_, by simp [stageRun, specGets]⟩
    cases hlk : lookupKey k st.oldMap <;> simp [stageRun, touchedKeys, hlk]
  | cons op rest ih =>
    obtain ⟨st₁, hstep, heq⟩ := stageRun_cons_ok dec st op rest h
    rw [heq] at h ⊢
    have IH := ih st₁ h
    cases op with
    | raise e => simp [stepOp] at hstep
    | get key =>
      simp only [stepOp] at hstep
      rcases hts : txGet (ε := ε) dec st key with ⟨res, st₂⟩
      rw [hts] at hstep
      cases res with
      | error e => simp at hstep
      | ok r0 =>
        simp only [Prod.mk.injEq, true_and] at hstep
        obtain ⟨s, hkey, hs, hopen, hr0, hst₂⟩ := txGet_ok_inv dec st hts
        subst hkey
        rw [hstep] at hst₂
        subst hst₂
        refine ⟨?_, ?_, ?_, ?_, ?_⟩
        · simpa [touchedKeys] using IH.1
        · simpa [touchedKeys] using IH.2.1
        · intro k
          have := IH.2.2.1 k
          cases hli : lastIntent rest k with
          | some v => simpa [hli, lastIntent] using this
          | none => simpa [hli, lastIntent] using this
        · intro k
          simpa [touchedKeys] using IH.2.2.2.1 k
        · rw [IH.2.2.2.2]
          subst hr0
          simp [specGets]
    | set key v =>
      simp only [stepOp] at hstep
      rcases hts : txSet (ε := ε) dec st key v with ⟨res, st₂⟩
      rw [hts] at hstep
      cases res with
      | error e => simp at hstep
      | ok w =>
        simp only [Prod.mk.injEq, true_and] at hstep
        obtain ⟨s, hkey, hw, hst₂⟩ := txSet_ok_inv dec st hts
        subst hkey
        rw [hstep] at hst₂
        subst hst₂
        refine ⟨?_, ?_, ?_, ?_, ?_⟩
        · rw [IH.1]
          simp only [touchedKeys, insKeys, keys_mapSet]
        · rw [IH.2.1]
          simp only [touchedKeys, insKeys, keys_snapOld]
        · intro k
          rw [IH.2.2.1 k]
          cases hli : lastIntent rest k with
          | some v' => simp [lastIntent, hli]
          | none =>
            simp only [lastIntent, hli, lookupKey_mapSet_eq]
            by_cases hks : k = s
            · subst hks; simp
            · have hsk : ¬(s = k) := fun hh => hks hh.symm
              simp [hks, hsk]
        · intro k
          rw [IH.2.2.2.1 k]
          simp only [lookupKey_snapOld]
          cases hlk : lookupKey k st.oldMap with
          | some w' => rfl
          | none =>
            by_cases hks : k = s
            · subst hks; simp [touchedKeys]
            · simp [touchedKeys, hks]
        · rw [IH.2.2.2.2]
          simp [specGets]
    | del key =>
      simp only [stepOp] at hstep
      rcases hts : txDel (ε := ε) dec st key with ⟨res, st₂⟩
      rw [hts] at hstep
      cases res with
      | error e => simp at hstep
      | ok u =>
        simp only [Prod.mk.injEq, true_and] at hstep
        obtain ⟨s, hkey, hst₂⟩ := txDel_ok_inv dec st hts
        subst hkey
        rw [hstep] at hst₂
        subst hst₂
        refine ⟨?_, ?_, ?_, ?_, ?_⟩
        · rw [IH.1]
          simp only [touchedKeys, insKeys, keys_mapSet]
        · rw [IH.2.1]
          simp only [touchedKeys, insKeys, keys_snapOld]
        · intro k
          rw [IH.2.2.1 k]
          cases hli : lastIntent rest k with
          | some v' => simp [lastIntent, hli]
          | none =>
            simp only [lastIntent, hli, lookupKey_mapSet_eq]
            by_cases hks : k = s
            · subst hks; simp
            · have hsk : ¬(s = k) := fun hh => hks hh.symm
              simp [hks, hsk]
        · intro k
          rw [IH.2.2.2.1 k]
          simp only [lookupKey_snapOld]
          cases hlk : lookupKey k st.oldMap with
          | some w' => rfl
          | none =>
            by_cases hks : k = s
            · subst hks; simp [touchedKeys]
            · simp [touchedKeys, hks]
        · rw [IH.2.2.2.2]
          simp [specGets]

/-! ### Replay and transaction plumbing -/

theorem set_preserves {α β ε : Type} (enc : α → β) (kv : KVSync β) (key : JKey) (v : Option α) :
    (KVSync.set (ε := ε) enc kv key v).2.snapshot = kv.snapshot
    ∧ (KVSync.set (ε := ε) enc kv key v).2.isOpen = kv.isOpen
    ∧ (KVSync.set (ε := ε) enc kv key v).2.journalMode = kv.journalMode := by
  unfold KVSync.set
  by_cases hopen : kv.isOpen = true
  · cases key with
    | nonString => simp [hopen]
    | str s =>
      by_cases hs : s = ""
      · simp [hopen, hs]
      · cases v with
        | none => simp [hopen, hs]
        | some a => simp [hopen, hs]
  · have h0 : kv.isOpen = false := by simpa using hopen
    simp [h0]

theorem delete_preserves {β ε : Type} (kv : KVSync β) (key : JKey) :
    (KVSync.delete (ε := ε) kv key).2.snapshot = kv.snapshot
    ∧ (KVSync.delete (ε := ε) kv key).2.isOpen = kv.isOpen
    ∧ (KVSync.delete (ε := ε) kv key).2.journalMode = kv.journalMode := by
  unfold KVSync.delete
  by_cases hopen : kv.isOpen = true
  · cases key with
    | nonString => simp [hopen]
    | str s =>
      by_cases hs : s = ""
      · simp [hopen, hs]
      · simp [hopen, hs]
  · have h0 : kv.isOpen = false := by simpa using hopen
    simp [h0]

/-- Replay touches only the table: the journal snapshot, the open flag and the
journal mode survive every replay step, failing or not. -/
theorem replay_preserves {α β ε : Type} (enc : α → β) (m : List (String × JVal α)) :
    ∀ kv : KVSync β,
      (replay (ε := ε) enc kv m).2.snapshot = kv.snapshot
      ∧ (replay (ε := ε) enc kv m).2.isOpen = kv.isOpen
      ∧ (replay (ε := ε) enc kv m).2.journalMode = kv.journalMode := by
  induction m with
  | nil => exact fun kv => ⟨rfl, rfl, rfl⟩
  | cons p rest ih =>
    intro kv
    rcases p with ⟨k, w⟩
    cases w with
    | jnull =>
      simp only [replay]
      rcases hd : KVSync.delete (ε := ε) kv (JKey.str k) with ⟨res, kv'⟩
      have hp := delete_preserves (ε := ε) kv (JKey.str k)
      rw [hd] at hp
      cases res with
      | error e => exact hp
      | ok x =>
        obtain ⟨h1, h2, h3⟩ := ih kv'
        exact ⟨h1.trans hp.1, h2.trans hp.2.1, h3.trans hp.2.2⟩
    | undef =>
      simp only [replay]
      rcases hd : KVSync.set (ε := ε) enc kv (JKey.str k) (none : Option α) with ⟨res, kv'⟩
      have hp := set_preserves (ε := ε) enc kv (JKey.str k) (none : Option α)
      rw [hd] at hp
      cases res with
      | error e => exact hp
      | ok x =>
        obtain ⟨h1, h2, h3⟩ := ih kv'
        exact ⟨h1.trans hp.1, h2.trans hp.2.1, h3.trans hp.2.2⟩
    | val a =>
      simp only [replay]
      rcases hd : KVSync.set (ε := ε) enc kv (JKey.str k) (some a) with ⟨res, kv'⟩
      have hp := set_preserves (ε := ε) enc kv (JKey.str k) (some a)
      rw [hd] at hp
      cases res with
      | error e => exact hp
      | ok x =>
        obtain ⟨h1, h2, h3⟩ := ih kv'
        exact ⟨h1.trans hp.1, h2.trans hp.2.1, h3.trans hp.2.2⟩

/-- A successful replay applies exactly the staged intents, in order, to the
table: `null` intents delete, staged values upsert. -/
theorem replay_ok {α β ε : Type} (enc : α → β) (m : List (String × JVal α)) :
    ∀ kv : KVSync β, (replay (ε := ε) enc kv m).1 = .ok () →
      (replay (ε := ε) enc kv m).2 = { kv with table := applyIntents enc kv.table m } := by
  induction m with
  | nil => intro kv h; rfl
  | cons p rest ih =>
    intro kv h
    rcases p with ⟨k, w⟩
    cases w with
    | jnull =>
      simp only [replay] at h ⊢
      rcases hd : KVSync.delete (ε := ε) kv (JKey.str k) with ⟨res, kv'⟩
      rw [hd] at h
      cases res with
      | error e => simp at h
      | ok x =>
        obtain ⟨-, s, hkey, -, hkv'⟩ := delete_ok_inv kv hd
        injection hkey with hkey
        subst hkey
        rw [ih kv' h, hkv']
        simp [applyIntents]
    | undef =>
      exfalso
      obtain ⟨e, hd⟩ := set_none_error (ε := ε) enc kv (JKey.str k)
      simp only [replay] at h
      rw [hd] at h
      simp at h
    | val a =>
      simp only [replay] at h ⊢
      rcases hd : KVSync.set (ε := ε) enc kv (JKey.str k) (some a) with ⟨res, kv'⟩
      rw [hd] at h
      cases res with
      | error e => simp at h
      | ok a' =>
        obtain ⟨-, s, hkey, -, hva, hkv'⟩ := set_ok_inv enc kv hd
        injection hkey with hkey
        subst hkey
        injection hva with hva
        subst hva
        rw [ih kv' h, hkv']
        simp [applyIntents]

theorem get_congr {α β ε : Type} (dec : β → α) {kv₁ kv₂ : KVSync β}
    (ht : kv₁.table = kv₂.table) (ho : kv₁.isOpen = kv₂.isOpen) (k : JKey) :
    KVSync.get (ε := ε) dec kv₁ k = KVSync.get (ε := ε) dec kv₂ k := by
  unfold KVSync.get
  rw [ht, ho]

theorem all_congr {α β ε : Type} (dec : β → α) {kv₁ kv₂ : KVSync β}
    (ht : kv₁.table = kv₂.table) (ho : kv₁.isOpen = kv₂.isOpen)
    (f : Option (String → α → Bool)) :
    KVSync.all (ε := ε) dec kv₁ f = KVSync.all (ε := ε) dec kv₂ f := by
  unfold KVSync.all
  rw [ht, ho]

theorem transaction_cases {α β ε : Type} (enc : α → β) (dec : β → α) (kv : KVSync β)
    (r : List (TxOp α ε)) (hopen : kv.isOpen = true) :
    KVSync.transaction enc dec kv r =
      match stageRun dec (⟨KVSync.begin kv, [], [], []⟩ : TxState α β) r with
      | (.error e, st') => (.error e, KVSync.rollback st'.kv)
      | (.ok _, st') =>
        match replay enc st'.kv st'.newMap with
        | (.error e, kv') => (.error e, KVSync.rollback kv')
        | (.ok _, kv') => (.ok ⟨st'.oldMap, st'.newMap⟩, KVSync.commit kv') := by
  unfold KVSync.transaction
  rw [hopen]
  rfl

/-! ### Claim theorems -/

/-- C1: Transaction atomicity.  For every pre-transaction store state and
every caller-supplied routine: whenever the transaction call returns a
failure, the observable store state afterwards — the table, the open flag,
and every `get` / `all` result — equals the pre-transaction state (full
rollback); and the failure returned is the triggering one unchanged: a
routine failure `e` propagates as `.error e` itself, and so does a failure
raised by a staged-intent replay step (no wrapping, no substitute error). -/
theorem transaction_atomicity {α β ε : Type} (enc : α → β) (dec : β → α) (kv : KVSync β)
    (r : List (TxOp α ε)) (hopen : kv.isOpen = true) :
    (∀ e : KVErr ε, (KVSync.transaction enc dec kv r).1 = .error e →
      ((KVSync.transaction enc dec kv r).2.table = kv.table
        ∧ (KVSync.transaction enc dec kv r).2.isOpen = kv.isOpen
        ∧ (∀ k, KVSync.get (ε := ε) dec (KVSync.transaction enc dec kv r).2 k
            = KVSync.get (ε := ε) dec kv k)
        ∧ (∀ f, KVSync.all (ε := ε) dec (KVSync.transaction enc dec kv r).2 f
            = KVSync.all (ε := ε) dec kv f)))
    ∧ (∀ e : KVErr ε,
        (stageRun dec (⟨KVSync.begin kv, [], [], []⟩ : TxState α β) r).1 = .error e →
        (KVSync.transaction enc dec kv r).1 = .error e)
    ∧ ((stageRun dec (⟨KVSync.begin kv, [], [], []⟩ : TxState α β) r).1 = .ok () →
        ∀ e : KVErr ε,
        (replay enc (stageRun dec (⟨KVSync.begin kv, [], [], []⟩ : TxState α β) r).2.kv
          (stageRun dec (⟨KVSync.begin kv, [], [], []⟩ : TxState α β) r).2.newMap).1
            = .error e →
        (KVSync.transaction enc dec kv r).1 = .error e) := by
  rw [transaction_cases enc dec kv r hopen]
  have hkv0 := stageRun_kv dec r (⟨KVSync.begin kv, [], [], []⟩ : TxState α β)
  rcases hsr : stageRun dec (⟨KVSync.begin kv, [], [], []⟩ : TxState α β) r with ⟨sres, st'⟩
  rw [hsr] at hkv0
  cases sres with
  | error e0 =>
    dsimp only
    have htab : (KVSync.rollback st'.kv).table = kv.table := by rw [hkv0]; rfl
    have hio : (KVSync.rollback st'.kv).isOpen = kv.isOpen := by rw [hkv0]; rfl
    refine ⟨fun e he => ⟨htab, hio, fun k => get_congr dec htab hio k,
      fun f => all_congr dec htab hio f⟩, fun e he => ?_, fun hok => Except.noConfusion hok⟩
    injection he with he'
    rw [he']
  | ok u =>
    cases u
    dsimp only
    have hpres := replay_preserves (ε := ε) enc st'.newMap st'.kv
    rcases hrp : replay (ε := ε) enc st'.kv st'.newMap with ⟨rres, kv'⟩
    rw [hrp] at hpres
    have hsnap : kv'.snapshot = some kv.table := by rw [hpres.1, hkv0]; rfl
    have hio' : kv'.isOpen = kv.isOpen := by rw [hpres.2.1, hkv0]; rfl
    cases rres with
    | error e0 =>
      dsimp only
      have hrb : KVSync.rollback kv' = { kv' with table := kv.table, snapshot := none } := by
        unfold KVSync.rollback
        rw [hsnap]
      have htab : (KVSync.rollback kv').table = kv.table := by rw [hrb]
      have hio2 : (KVSync.rollback kv').isOpen = kv.isOpen := by rw [hrb]; exact hio'
      refine ⟨fun e he => ⟨htab, hio2, fun k => get_congr dec htab hio2 k,
        fun f => all_congr dec htab hio2 f⟩,
        fun e he => Except.noConfusion he, fun hok e he => ?_⟩
      injection he with he'
      rw [he']
    | ok u' =>
      cases u'
      dsimp only
      exact ⟨fun e he => Except.noConfusion he, fun e he => Except.noConfusion he,
        fun hok e he => Except.noConfusion he⟩

/-- Witness for C1 at a concrete input: a store holding `a ↦ 7`, a routine
that stages two sets and then raises; the transaction fails with exactly the
routine's failure and the table is unchanged. -/
theorem transaction_atomicity_witness :
    (KVSync.transaction (ε := Unit) id id
        (⟨[("a", 7)], none, true, "DELETE"⟩ : KVSync Nat)
        [TxOp.set (JKey.str "a") (some 1), TxOp.set (JKey.str "b") (some 2),
          TxOp.raise ()]).1 = .error (.user ())
    ∧ (KVSync.transaction (ε := Unit) id id
        (⟨[("a", 7)], none, true, "DELETE"⟩ : KVSync Nat)
        [TxOp.set (JKey.str "a") (some 1), TxOp.set (JKey.str "b") (some 2),
          TxOp.raise ()]).2.table = [("a", 7)] := by
  have h := transaction_atomicity (ε := Unit) id id
    (⟨[("a", 7)], none, true, "DELETE"⟩ : KVSync Nat)
    [TxOp.set (JKey.str "a") (some 1), TxOp.set (JKey.str "b") (some 2), TxOp.raise ()] rfl
  have hstage : (stageRun (ε := Unit) id
      (⟨KVSync.begin ⟨[("a", 7)], none, true, "DELETE"⟩, [], [], []⟩ : TxState Nat Nat)
      [TxOp.set (JKey.str "a") (some 1), TxOp.set (JKey.str "b") (some 2),
        TxOp.raise ()]).1 = .error (.user ()) := rfl
  have h1 := h.2.1 (.user ()) hstage
  exact ⟨h1, (h.1 (.user ()) h1).1⟩

/-- C10 (implicit): staged intents are invisible to reads until replay.
Running any routine against the staging handle leaves the underlying store
exactly as `BEGIN` left it (staging `set`/`delete` never mutate the engine),
so a `get` performed on the handle or the store during the routine returns
the key's pre-transaction value; the log of `get` results observed by a
routine that completes equals the pre-transaction table reads. -/
theorem staging_invisible {α β ε : Type} (dec : β → α) (kv : KVSync β) (r : List (TxOp α ε)) :
    ((stageRun dec (⟨KVSync.begin kv, [], [], []⟩ : TxState α β) r).2.kv = KVSync.begin kv)
    ∧ (∀ k, KVSync.get (ε := ε) dec
          (stageRun dec (⟨KVSync.begin kv, [], [], []⟩ : TxState α β) r).2.kv k
        = KVSync.get (ε := ε) dec kv k)
    ∧ ((stageRun dec (⟨KVSync.begin kv, [], [], []⟩ : TxState α β) r).1 = .ok () →
        (stageRun dec (⟨KVSync.begin kv, [], [], []⟩ : TxState α β) r).2.gets
          = specGets dec kv.table r) := by
  have hkv := stageRun_kv dec r (⟨KVSync.begin kv, [], [], []⟩ : TxState α β)
  refine ⟨hkv, ?_, ?_⟩
  · intro k
    rw [hkv]
    exact get_congr dec rfl rfl k
  · intro h
    have := (stageRun_ok_spec dec r (⟨KVSync.begin kv, [], [], []⟩ : TxState α β) h).2.2.2.2
    simpa using this

/-- Witness for C10: with `a ↦ 7` in the store, a routine that stages a set
on `a` and then reads `a` still observes the pre-transaction value `7`. -/
theorem staging_invisible_witness :
    ((stageRun (ε := Unit) id
        (⟨KVSync.begin ⟨[("a", 7)], none, true, "DELETE"⟩, [], [], []⟩ : TxState Nat Nat)
        [TxOp.set (JKey.str "a") (some 1), TxOp.get (JKey.str "a")]).2.gets
      = [some 7]) := by
  have h := (staging_invisible (ε := Unit) id (⟨[("a", 7)], none, true, "DELETE"⟩ : KVSync Nat)
    [TxOp.set (JKey.str "a") (some 1), TxOp.get (JKey.str "a")]).2.2 rfl
  simpa using h

/-- C2: staged replay.  For every routine that returns normally (and whose
replay succeeds), the transaction commits (`snapshot = none`, `.ok` report)
and the final table is exactly the fold of the staged intents over the
pre-transaction table in `stagedIntents` (= `newMap`) insertion order, where
a `null` (Delete) intent performs the store's delete effect and a staged
value (Set intent) performs the store's set (upsert) effect; each key occurs
exactly once in `newMap`, in the order keys were first inserted, and the
intent recorded for a key is the last one the routine staged for it. -/
theorem transaction_staged_replay {α β ε : Type} (enc : α → β) (dec : β → α) (kv : KVSync β)
    (r : List (TxOp α ε)) (hopen : kv.isOpen = true)
    (hstage : (stageRun dec (⟨KVSync.begin kv, [], [], []⟩ : TxState α β) r).1 = .ok ())
    (hrep : (replay (ε := ε) enc
        (stageRun dec (⟨KVSync.begin kv, [], [], []⟩ : TxState α β) r).2.kv
        (stageRun dec (⟨KVSync.begin kv, [], [], []⟩ : TxState α β) r).2.newMap).1 = .ok ()) :
    ((KVSync.transaction enc dec kv r).1 = .ok
        ⟨(stageRun dec (⟨KVSync.begin kv, [], [], []⟩ : TxState α β) r).2.oldMap,
         (stageRun dec (⟨KVSync.begin kv, [], [], []⟩ : TxState α β) r).2.newMap⟩)
    ∧ ((KVSync.transaction enc dec kv r).2.table
        = applyIntents enc kv.table
            (stageRun dec (⟨KVSync.begin kv, [], [], []⟩ : TxState α β) r).2.newMap)
    ∧ ((KVSync.transaction enc dec kv r).2.snapshot = none)
    ∧ ((stageRun dec (⟨KVSync.begin kv, [], [], []⟩ : TxState α β) r).2.newMap.map Prod.fst
        = insKeys [] (touchedKeys r))
    ∧ (((stageRun dec (⟨KVSync.begin kv, [], [], []⟩ : TxState α β) r).2.newMap.map
        Prod.fst).Nodup)
    ∧ (∀ k, lookupKey k (stageRun dec (⟨KVSync.begin kv, [], [], []⟩ : TxState α β) r).2.newMap
        = lastIntent r k) := by
  have spec := stageRun_ok_spec dec r (⟨KVSync.begin kv, [], [], []⟩ : TxState α β) hstage
  have hkv0 := stageRun_kv dec r (⟨KVSync.begin kv, [], [], []⟩ : TxState α β)
  rw [transaction_cases enc dec kv r hopen]
  rcases hsr : stageRun dec (⟨KVSync.begin kv, [], [], []⟩ : TxState α β) r with ⟨sres, st'⟩
  rw [hsr] at hstage hrep spec hkv0
  have hs2 : sres = Except.ok () := hstage
  subst hs2
  dsimp only at hrep spec hkv0 ⊢
  have hrepl := replay_ok (ε := ε) enc st'.newMap st'.kv hrep
  rcases hrp : replay (ε := ε) enc st'.kv st'.newMap with ⟨rres, kv'⟩
  rw [hrp] at hrep hrepl
  have hr2 : rres = Except.ok () := hrep
  subst hr2
  dsimp only at hrepl ⊢
  refine ⟨rfl, ?_, rfl, ?_, ?_, ?_⟩
  · have hct : (KVSync.commit kv').table = kv'.table := rfl
    rw [hct, hrepl, hkv0]
    rfl
  · simpa using spec.1
  · have h1 : st'.newMap.map Prod.fst = insKeys [] (touchedKeys r) := by simpa using spec.1
    rw [h1]
    exact insKeys_nodup [] _ List.nodup_nil
  · intro k
    have hlk := spec.2.2.1 k
    cases hli : lastIntent r k with
    | some v => simpa [hli] using hlk
    | none => simpa [hli, lookupKey] using hlk

/-- Witness for C2: a routine staging `set a 1`, `set b 2`, `delete a` over a
store holding `a ↦ 7` commits a table holding only `b ↦ 2`, and the report
keeps first-touch order with the last intent winning for `a`. -/
theorem transaction_staged_replay_witness :
    (KVSync.transaction (ε := Unit) id id (⟨[("a", 7)], none, true, "DELETE"⟩ : KVSync Nat)
        [TxOp.set (JKey.str "a") (some 1), TxOp.set (JKey.str "b") (some 2),
          TxOp.del (JKey.str "a")]).1
      = .ok ⟨[("a", JVal.val 7), ("b", JVal.undef)], [("a", JVal.jnull), ("b", JVal.val 2)]⟩
    ∧ (KVSync.transaction (ε := Unit) id id (⟨[("a", 7)], none, true, "DELETE"⟩ : KVSync Nat)
        [TxOp.set (JKey.str "a") (some 1), TxOp.set (JKey.str "b") (some 2),
          TxOp.del (JKey.str "a")]).2.table = [("b", 2)] := by
  have h := transaction_staged_replay (ε := Unit) id id
    (⟨[("a", 7)], none, true, "DELETE"⟩ : KVSync Nat)
    [TxOp.set (JKey.str "a") (some 1), TxOp.set (JKey.str "b") (some 2),
      TxOp.del (JKey.str "a")] rfl rfl rfl
  refine ⟨h.1, ?_⟩
  rw [h.2.1]
  rfl

/-- C3: transaction report correctness.  For every session that completes,
`oldValues` and `newValues` are both ordered by the first-touch order of keys
within the session and each key appears at most once in each; the `oldValues`
entry for a touched key is the value that existed before any mutation in the
session (`undefined`, the absence sentinel, when the key did not exist),
captured at the key's first touch regardless of how many times the key is
set or deleted afterwards; the `newValues` entry is the last staged intent. -/
theorem transaction_report {α β ε : Type} (enc : α → β) (dec : β → α) (kv : KVSync β)
    (r : List (TxOp α ε)) (hopen : kv.isOpen = true)
    (hstage : (stageRun dec (⟨KVSync.begin kv, [], [], []⟩ : TxState α β) r).1 = .ok ())
    (hrep : (replay (ε := ε) enc
        (stageRun dec (⟨KVSync.begin kv, [], [], []⟩ : TxState α β) r).2.kv
        (stageRun dec (⟨KVSync.begin kv, [], [], []⟩ : TxState α β) r).2.newMap).1 = .ok ()) :
    ((KVSync.transaction enc dec kv r).1 = .ok
        ⟨(stageRun dec (⟨KVSync.begin kv, [], [], []⟩ : TxState α β) r).2.oldMap,
         (stageRun dec (⟨KVSync.begin kv, [], [], []⟩ : TxState α β) r).2.newMap⟩)
    ∧ ((stageRun dec (⟨KVSync.begin kv, [], [], []⟩ : TxState α β) r).2.oldMap.map Prod.fst
        = insKeys [] (touchedKeys r))
    ∧ ((stageRun dec (⟨KVSync.begin kv, [], [], []⟩ : TxState α β) r).2.newMap.map Prod.fst
        = insKeys [] (touchedKeys r))
    ∧ (((stageRun dec (⟨KVSync.begin kv, [], [], []⟩ : TxState α β) r).2.oldMap.map
        Prod.fst).Nodup)
    ∧ (∀ k, k ∈ touchedKeys r →
        lookupKey k (stageRun dec (⟨KVSync.begin kv, [], [], []⟩ : TxState α β) r).2.oldMap
          = some (oldEntryOf (tableVal dec kv.table k)))
    ∧ (∀ k, lookupKey k (stageRun dec (⟨KVSync.begin kv, [], [], []⟩ : TxState α β) r).2.newMap
        = lastIntent r k) := by
  have spec := stageRun_ok_spec dec r (⟨KVSync.begin kv, [], [], []⟩ : TxState α β) hstage
  rw [transaction_cases enc dec kv r hopen]
  rcases hsr : stageRun dec (⟨KVSync.begin kv, [], [], []⟩ : TxState α β) r with ⟨sres, st'⟩
  rw [hsr] at hstage hrep spec
  have hs2 : sres = Except.ok () := hstage
  subst hs2
  dsimp only at hrep spec ⊢
  rcases hrp : replay (ε := ε) enc st'.kv st'.newMap with ⟨rres, kv'⟩
  rw [hrp] at hrep
  have hr2 : rres = Except.ok () := hrep
  subst hr2
  dsimp only
  refine ⟨rfl, by simpa using spec.2.1, by simpa using spec.1, ?_, ?_, ?_⟩
  · have h1 : st'.oldMap.map Prod.fst = insKeys [] (touchedKeys r) := by simpa using spec.2.1
    rw [h1]
    exact insKeys_nodup [] _ List.nodup_nil
  · intro k hk
    have hlk := spec.2.2.2.1 k
    simpa [lookupKey, hk] using hlk
  · intro k
    have hlk := spec.2.2.1 k
    cases hli : lastIntent r k with
    | some v => simpa [hli] using hlk
    | none => simpa [hli, lookupKey] using hlk

/-- Witness for C3 at the spec's scenario: `a ↦ "old"` before the
transaction, the routine sets `a` to `"mid"` then `"new"`; the report has
exactly one `oldValues` entry `a ↦ "old"` and one `newValues` entry
`a ↦ "new"`. -/
theorem transaction_report_witness :
    (KVSync.transaction (ε := Unit) id id
        (⟨[("a", "old")], none, true, "DELETE"⟩ : KVSync String)
        [TxOp.set (JKey.str "a") (some "mid"), TxOp.set (JKey.str "a") (some "new")]).1
      = .ok ⟨[("a", JVal.val "old")], [("a", JVal.val "new")]⟩ := by
  have h := transaction_report (ε := Unit) id id
    (⟨[("a", "old")], none, true, "DELETE"⟩ : KVSync String)
    [TxOp.set (JKey.str "a") (some "mid"), TxOp.set (JKey.str "a") (some "new")] rfl rfl rfl
  exact h.1

/-- C6: delete-after-set within one session.  For every key absent before the
transaction (and every value), a routine performing `set(x, a)` then
`delete(x)` commits, the report maps `x` to the absence sentinel in both
`oldValues` (`undefined`) and `newValues` (`null`, the delete intent), and
`get(x)` afterwards returns absent. -/
theorem transaction_delete_after_set {α β ε : Type} (enc : α → β) (dec : β → α)
    (kv : KVSync β) (s : String) (a : α)
    (hopen : kv.isOpen = true) (hs : s ≠ "") (habs : lookupKey s kv.table = none) :
    ((KVSync.transaction enc dec kv
        [TxOp.set (ε := ε) (JKey.str s) (some a), TxOp.del (JKey.str s)]).1
      = .ok ⟨[(s, JVal.undef)], [(s, JVal.jnull)]⟩)
    ∧ ((KVSync.transaction enc dec kv
        [TxOp.set (ε := ε) (JKey.str s) (some a), TxOp.del (JKey.str s)]).2.snapshot = none)
    ∧ (KVSync.get (ε := ε) dec
        (KVSync.transaction enc dec kv
          [TxOp.set (ε := ε) (JKey.str s) (some a), TxOp.del (JKey.str s)]).2 (JKey.str s)
      = .ok none) := by
  have hopen' : (KVSync.begin kv).isOpen = true := hopen
  have hget : KVSync.get (ε := ε) dec (KVSync.begin kv) (JKey.str s) = .ok none := by
    rw [get_open_valid dec (KVSync.begin kv) hopen' hs]
    have htv : tableVal dec (KVSync.begin kv).table s = none := by
      unfold tableVal
      have hb : (KVSync.begin kv).table = kv.table := rfl
      rw [hb, habs]
      rfl
    rw [htv]
  have hstage : stageRun dec (⟨KVSync.begin kv, [], [], []⟩ : TxState α β)
      [TxOp.set (ε := ε) (JKey.str s) (some a), TxOp.del (JKey.str s)]
      = (.ok (), ⟨KVSync.begin kv, [(s, JVal.undef)], [(s, JVal.jnull)], []⟩) := by
    simp [stageRun, stepOp, txSet, txDel, txSnap, mapHas, lookupKey, hget, mapSet,
      oldEntryOf, stagedOf, retOf]
  have hreplay : replay (ε := ε) enc (KVSync.begin kv) [(s, JVal.jnull)]
      = (.ok (), { KVSync.begin kv with table := removeKey kv.table s }) := by
    simp [replay, delete_shape (ε := ε) (KVSync.begin kv) hopen' hs]
    rfl
  rw [transaction_cases enc dec kv _ hopen, hstage]
  dsimp only
  rw [hreplay]
  dsimp only
  refine ⟨rfl, rfl, ?_⟩
  have hfo : (KVSync.commit { KVSync.begin kv with table := removeKey kv.table s }).isOpen
      = true := hopen
  rw [get_open_valid dec _ hfo hs]
  have htv2 : tableVal dec
      (KVSync.commit { KVSync.begin kv with table := removeKey kv.table s }).table s
      = none := by
    unfold tableVal
    have hb : (KVSync.commit { KVSync.begin kv with table := removeKey kv.table s }).table
        = removeKey kv.table s := rfl
    rw [hb, lookupKey_removeKey_self]
    rfl
  rw [htv2]

/-- Witness for C6: the empty store, `set x 1` then `delete x` inside one
transaction; the report carries the two absence sentinels and `get x`
afterwards is absent. -/
theorem transaction_delete_after_set_witness :
    ((KVSync.transaction (ε := Unit) id id (⟨[], none, true, "DELETE"⟩ : KVSync Nat)
        [TxOp.set (JKey.str "x") (some 1), TxOp.del (JKey.str "x")]).1
      = .ok ⟨[("x", JVal.undef)], [("x", JVal.jnull)]⟩)
    ∧ (KVSync.get (ε := Unit) id
        (KVSync.transaction (ε := Unit) id id (⟨[], none, true, "DELETE"⟩ : KVSync Nat)
          [TxOp.set (JKey.str "x") (some 1), TxOp.del (JKey.str "x")]).2 (JKey.str "x")
      = .ok none) := by
  have h := transaction_delete_after_set (ε := Unit) id id
    (⟨[], none, true, "DELETE"⟩ : KVSync Nat) "x" 1 rfl (by decide) rfl
  exact ⟨h.1, h.2.2⟩

/-- C7: round-trip and absence.  For every valid key and value: `set` returns
the value as given; `set` then `get` returns a value equal to it whenever the
codec's decode inverts its encode on that value; `get` on a key with no row
(never written) returns absent; and `get` right after `delete` of the key
returns absent. -/
theorem set_get_roundtrip {α β ε : Type} (enc : α → β) (dec : β → α) (kv : KVSync β)
    (s : String) (a : α) (hopen : kv.isOpen = true) (hs : s ≠ "")
    (hcodec : dec (enc a) = a) :
    ((KVSync.set (ε := ε) enc kv (JKey.str s) (some a)).1 = .ok a)
    ∧ (KVSync.get (ε := ε) dec (KVSync.set (ε := ε) enc kv (JKey.str s) (some a)).2
        (JKey.str s) = .ok (some a))
    ∧ (∀ kv₀ : KVSync β, kv₀.isOpen = true → lookupKey s kv₀.table = none →
        KVSync.get (ε := ε) dec kv₀ (JKey.str s) = .ok none)
    ∧ (∀ kv₀ : KVSync β, kv₀.isOpen = true →
        KVSync.get (ε := ε) dec (KVSync.delete (ε := ε) kv₀ (JKey.str s)).2 (JKey.str s)
          = .ok none) := by
  have hshape := set_some_shape (ε := ε) enc kv a hopen hs
  refine ⟨by rw [hshape], ?_, ?_, ?_⟩
  · rw [hshape]
    dsimp only
    have hopen2 : ({ kv with table := upsert kv.table s (enc a) } : KVSync β).isOpen = true :=
      hopen
    rw [get_open_valid dec _ hopen2 hs]
    have htv : tableVal dec ({ kv with table := upsert kv.table s (enc a) } : KVSync β).table s
        = some a := by
      unfold tableVal
      have hb : ({ kv with table := upsert kv.table s (enc a) } : KVSync β).table
          = upsert kv.table s (enc a) := rfl
      rw [hb, lookupKey_upsert_self]
      simp [hcodec]
    rw [htv]
  · intro kv₀ ho hn
    rw [get_open_valid dec kv₀ ho hs]
    unfold tableVal
    rw [hn]
    rfl
  · intro kv₀ ho
    rw [delete_shape (ε := ε) kv₀ ho hs]
    dsimp only
    have ho2 : ({ kv₀ with table := removeKey kv₀.table s } : KVSync β).isOpen = true := ho
    rw [get_open_valid dec _ ho2 hs]
    have htv : tableVal dec ({ kv₀ with table := removeKey kv₀.table s } : KVSync β).table s
        = none := by
      unfold tableVal
      have hb : ({ kv₀ with table := removeKey kv₀.table s } : KVSync β).table
          = removeKey kv₀.table s := rfl
      rw [hb, lookupKey_removeKey_self]
      rfl
    rw [htv]

/-- Witness for C7: on the empty store, `set "k" 5` then `get "k"` is `5`. -/
theorem set_get_roundtrip_witness :
    KVSync.get (ε := Unit) id
      (KVSync.set (ε := Unit) id (⟨[], none, true, "DELETE"⟩ : KVSync Nat)
        (JKey.str "k") (some 5)).2 (JKey.str "k") = .ok (some 5) :=
  (set_get_roundtrip (ε := Unit) id id (⟨[], none, true, "DELETE"⟩ : KVSync Nat)
    "k" 5 rfl (by decide) rfl).2.1

/-- C8: key validation.  For every open store and every invalid key (the
empty string or a non-string), each of `set`, `get`, `delete` raises the
`InvalidKey` failure and returns the store state unchanged — the engine is
never touched (no row written, modified, or removed). -/
theorem invalid_key_rejected {α β ε : Type} (enc : α → β) (dec : β → α) (kv : KVSync β)
    (key : JKey) (v : Option α) (hopen : kv.isOpen = true)
    (hbad : key = JKey.str "" ∨ key = JKey.nonString) :
    (KVSync.set (ε := ε) enc kv key v = (.error (.kv "set" invalidKeyMsgSet), kv))
    ∧ (KVSync.get (ε := ε) dec kv key = .error (.kv "get" invalidKeyMsgDot))
    ∧ (KVSync.delete (ε := ε) kv key = (.error (.kv "delete" invalidKeyMsgDot), kv)) := by
  rcases hbad with h | h <;> subst h <;>
    exact ⟨by simp [KVSync.set, hopen], by simp [KVSync.get, hopen],
      by simp [KVSync.delete, hopen]⟩

/-- Witness for C8 at the empty-string key. -/
theorem invalid_key_rejected_witness :
    (KVSync.set (ε := Unit) id (⟨[("a", 7)], none, true, "DELETE"⟩ : KVSync Nat)
        (JKey.str "") (some 1)
      = (.error (.kv "set" invalidKeyMsgSet), (⟨[("a", 7)], none, true, "DELETE"⟩ : KVSync Nat)))
    ∧ (KVSync.get (ε := Unit) id (⟨[("a", 7)], none, true, "DELETE"⟩ : KVSync Nat) (JKey.str "")
      = .error (.kv "get" invalidKeyMsgDot))
    ∧ (KVSync.delete (ε := Unit) (⟨[("a", 7)], none, true, "DELETE"⟩ : KVSync Nat) (JKey.str "")
      = (.error (.kv "delete" invalidKeyMsgDot),
          (⟨[("a", 7)], none, true, "DELETE"⟩ : KVSync Nat))) :=
  invalid_key_rejected (ε := Unit) id id (⟨[("a", 7)], none, true, "DELETE"⟩ : KVSync Nat)
    (JKey.str "") (some 1) rfl (Or.inl rfl)

/-- C9: `setJournalMode` (the spec's `setDurabilityMode`) rejects every mode
outside the recognized list with the `InvalidDurabilityMode` failure, leaving
the store — in particular the current journal mode — untouched; a recognized
mode is applied to the engine immediately. -/
theorem setJournalMode_spec {β ε : Type} (kv : KVSync β) (mode : String)
    (hopen : kv.isOpen = true) :
    (journalModes.contains mode = false →
      KVSync.setJournalMode (ε := ε) kv mode
        = (.error (.kv "setJournalMode" (invalidJournalModeMsg mode)), kv))
    ∧ (journalModes.contains mode = true →
      KVSync.setJournalMode (ε := ε) kv mode
        = (.ok { kv with journalMode := mode }, { kv with journalMode := mode })) := by
  constructor <;> intro hm <;>
    · unfold KVSync.setJournalMode
      rw [hopen, hm]
      rfl

/-- Witness for C9: `"BOGUS"` is rejected with the mode unchanged, `"WAL"` is
applied immediately. -/
theorem setJournalMode_spec_witness :
    (KVSync.setJournalMode (ε := Unit) (⟨[], none, true, "DELETE"⟩ : KVSync Nat) "BOGUS"
      = (.error (.kv "setJournalMode" (invalidJournalModeMsg "BOGUS")),
          (⟨[], none, true, "DELETE"⟩ : KVSync Nat)))
    ∧ (KVSync.setJournalMode (ε := Unit) (⟨[], none, true, "DELETE"⟩ : KVSync Nat) "WAL"
      = (.ok (⟨[], none, true, "WAL"⟩ : KVSync Nat), (⟨[], none, true, "WAL"⟩ : KVSync Nat))) := by
  refine ⟨(setJournalMode_spec (ε := Unit) (⟨[], none, true, "DELETE"⟩ : KVSync Nat)
    "BOGUS" rfl).1 (by decide), ?_⟩
  exact (setJournalMode_spec (ε := Unit) (⟨[], none, true, "DELETE"⟩ : KVSync Nat)
    "WAL" rfl).2 (by decide)

/-- C4 counterexample: `delete` of the current class (`src/classes/KVSync.ts`)
cannot return the previous value.  Two stores that differ only in the value
previously stored under `"a"` (1 versus 2) produce bit-identical `delete`
results (result and post-state), so the result carries no information about
the previous value; the method returns the store instance (`return this`). -/
theorem delete_previous_value_counterexample :
    KVSync.delete (ε := Unit) (⟨[("a", 1)], none, true, "DELETE"⟩ : KVSync Nat) (JKey.str "a")
      = KVSync.delete (ε := Unit) (⟨[("a", 2)], none, true, "DELETE"⟩ : KVSync Nat)
          (JKey.str "a") := rfl

/-- C4 amended: for every valid key on an open store, the current class's
`delete(key)` removes the row for `key` and returns the store instance itself
(for chaining), not the previous value; the previous-value-or-absent return
is the behavior of the earlier `src/structures/KVSync.ts` variant's `delete`,
which returns the decoded stored value, or absent when no row exists. -/
theorem delete_returns_store {α β ε : Type} (dec : β → α) (kv : KVSync β) (s : String)
    (hopen : kv.isOpen = true) (hs : s ≠ "") :
    (KVSync.delete (ε := ε) kv (JKey.str s)
      = (.ok { kv with table := removeKey kv.table s },
          { kv with table := removeKey kv.table s }))
    ∧ ((structuresDelete dec kv s).1 = (lookupKey s kv.table).map dec) := by
  refine ⟨delete_shape (ε := ε) kv hopen hs, ?_⟩
  unfold structuresDelete
  cases lookupKey s kv.table <;> simp

/-- Witness for the amended C4: deleting `"a" ↦ 1` gives back the emptied
store itself, while the structures-variant delete returns the previous
value 1. -/
theorem delete_returns_store_witness :
    (KVSync.delete (ε := Unit) (⟨[("a", 1)], none, true, "DELETE"⟩ : KVSync Nat) (JKey.str "a")
      = (.ok (⟨[], none, true, "DELETE"⟩ : KVSync Nat), (⟨[], none, true, "DELETE"⟩ : KVSync Nat)))
    ∧ ((structuresDelete id (⟨[("a", 1)], none, true, "DELETE"⟩ : KVSync Nat) "a").1
      = some 1) := by
  have h := delete_returns_store (ε := Unit) id (⟨[("a", 1)], none, true, "DELETE"⟩ : KVSync Nat)
    "a" rfl (by decide)
  exact ⟨h.1, h.2⟩

/-- C5 counterexample: within a transaction, the staging handle's `set` with
the absence sentinel (`undefined`) does not fail at the staging call.  On a
fresh session it returns `.ok null` (`value ?? null`) and records the
`undefined` intent in `newMap` — no `UndefinedValue` failure is raised
there. -/
theorem tx_set_undefined_stages_counterexample :
    txSet (ε := Unit) id
        (⟨⟨[], none, true, "DELETE"⟩, [], [], []⟩ : TxState Nat Nat) (JKey.str "a") none
      = (.ok JVal.jnull,
          ⟨⟨[], none, true, "DELETE"⟩, [("a", JVal.undef)], [("a", JVal.undef)], []⟩) := rfl

/-- C5 amended: staging `set(key, undefined)` succeeds at the staging call
(returning `null` and recording the intent); the `UndefinedValue` failure of
the non-transactional `set` is raised only when the staged intent is replayed
after the routine returns, so the whole transaction then fails with
`UndefinedValue` and is rolled back — the key is not silently deleted and the
store is unchanged. -/
theorem tx_set_undefined_replay_fails {α β ε : Type} (enc : α → β) (dec : β → α)
    (kv : KVSync β) (s : String) (hopen : kv.isOpen = true) (hs : s ≠ "") :
    ((txSet (ε := ε) dec (⟨KVSync.begin kv, [], [], []⟩ : TxState α β) (JKey.str s)
        (none : Option α)).1 = .ok JVal.jnull)
    ∧ ((KVSync.transaction enc dec kv [TxOp.set (ε := ε) (JKey.str s) none]).1
      = .error (.kv "set" undefinedValueMsg))
    ∧ ((KVSync.transaction enc dec kv [TxOp.set (ε := ε) (JKey.str s) none]).2.table
      = kv.table) := by
  have hopen' : (KVSync.begin kv).isOpen = true := hopen
  have hget := get_open_valid (ε := ε) dec (KVSync.begin kv) hopen' hs
  have hstage : stageRun dec (⟨KVSync.begin kv, [], [], []⟩ : TxState α β)
      [TxOp.set (ε := ε) (JKey.str s) none]
      = (.ok (), ⟨KVSync.begin kv,
          [(s, oldEntryOf (tableVal dec (KVSync.begin kv).table s))],
          [(s, JVal.undef)], []⟩) := by
    simp [stageRun, stepOp, txSet, txSnap, mapHas, lookupKey, hget, mapSet, stagedOf, retOf]
  have hset : KVSync.set (ε := ε) enc (KVSync.begin kv) (JKey.str s) (none : Option α)
      = (.error (.kv "set" undefinedValueMsg), KVSync.begin kv) := by
    simp [KVSync.set, hopen', hs]
  have hreplay : replay (ε := ε) enc (KVSync.begin kv) [(s, JVal.undef)]
      = (.error (.kv "set" undefinedValueMsg), KVSync.begin kv) := by
    simp [replay, hset]
  refine ⟨?_, ?_, ?_⟩
  · simp [txSet, txSnap, mapHas, lookupKey, hget, retOf]
  · rw [transaction_cases enc dec kv _ hopen, hstage]
    dsimp only
    rw [hreplay]
  · rw [transaction_cases enc dec kv _ hopen, hstage]
    dsimp only
    rw [hreplay]
    rfl

/-- Witness for the amended C5: on the empty store, a routine staging only
`set("a", undefined)` returns null at the staging call, and the transaction
fails with `UndefinedValue`, leaving the table unchanged. -/
theorem tx_set_undefined_replay_fails_witness :
    ((txSet (ε := Unit) id
        (⟨KVSync.begin ⟨[], none, true, "DELETE"⟩, [], [], []⟩ : TxState Nat Nat)
        (JKey.str "a") (none : Option Nat)).1 = .ok JVal.jnull)
    ∧ ((KVSync.transaction (ε := Unit) id id (⟨[], none, true, "DELETE"⟩ : KVSync Nat)
        [TxOp.set (JKey.str "a") none]).1 = .error (.kv "set" undefinedValueMsg))
    ∧ ((KVSync.transaction (ε := Unit) id id (⟨[], none, true, "DELETE"⟩ : KVSync Nat)
        [TxOp.set (JKey.str "a") none]).2.table = []) :=
  tx_set_undefined_replay_fails (ε := Unit) id id (⟨[], none, true, "DELETE"⟩ : KVSync Nat)
    "a" rfl (by decide)
